import Mathlib

/-!
Verification of the tower-jump analyzer.

The repository holds two implementations of the same pipeline:
`processor.py` (csv-based `TowerJumpAnalyzer`) and `test.py`
(pandas-based `TowerJumpAnalyzer`).  This file embeds the pipeline's
data model and operations and proves the behavioural claims about it.

Modelling conventions:
- Python `datetime` values are represented by their epoch-second count
  as `ℤ` (the only operations the code performs on them — ordering,
  equality and subtraction via `total_seconds()` — factor through that
  representation for the valid dates the parsers produce).
- Python `float` values (coordinates, confidences) are represented by
  `ℚ`; `round(x, n)` is modelled as exact half-even rounding at `n`
  decimal digits.
- Fallible Python operations (raising `TypeError`/`ValueError`) are
  modelled with `Option`/`Except`.
-/

namespace TowerJump

abbrev Label := String

/-- Python blankness test used throughout both files for the state field:
`not s or not s.strip()` — true exactly when every character of `s` is
whitespace (including the empty string). -/
def blank (s : String) : Bool := s.data.all (fun c => c.isWhitespace)

/-- Round a rational to the nearest integer, ties to even — the rounding
mode of Python's builtin `round`. -/
def roundHalfEven (q : ℚ) : ℤ :=
  let f : ℤ := ⌊q⌋
  let frac : ℚ := q - (f : ℚ)
  if frac < 1/2 then f
  else if 1/2 < frac then f + 1
  else if f % 2 = 0 then f else f + 1

/-- Python `round(q, n)` on our rational model of floats. -/
def roundTo (n : ℕ) (q : ℚ) : ℚ := (roundHalfEven (q * 10 ^ n) : ℚ) / 10 ^ n

/-- One insertion step of `collections.Counter` construction: increment
the count of `s`, appending a fresh entry at the end on first sight. -/
def bump : List (Label × ℕ) → Label → List (Label × ℕ)
  | [], s => [(s, 1)]
  | (a, n) :: rest, s =>
      if a = s then (a, n + 1) :: rest else (a, n) :: bump rest s

/-- `collections.Counter(ss)` as an association list whose keys appear in
first-occurrence order (the iteration order of a Python dict). -/
def counterList (ss : List Label) : List (Label × ℕ) := ss.foldl bump []

/-- `Counter.most_common(1)[0]`: the first key (in first-occurrence
order) attaining the maximal count.  `most_common` on an empty counter
raises `IndexError` in Python; every caller in the source passes a
non-empty list, and the `("", 0)` default is unreachable there. -/
def mostCommon1 : List (Label × ℕ) → Label × ℕ
  | [] => ("", 0)
  | p :: rest => rest.foldl (fun best q => if best.2 < q.2 then q else best) p

/-- A processed row of `processor.py` (`_process_row`'s result dict).
`utc_datetime`/`local_datetime` hold epoch seconds, `none` standing for
Python `None` (unparseable date). -/
structure Record where
  page : ℤ
  item : ℤ
  utc_datetime : Option ℤ
  local_datetime : Option ℤ
  latitude : ℚ
  longitude : ℚ
  timezone : String
  city : String
  county : String
  state : String
  country : String
  cell_type : String
deriving DecidableEq, Repr

/-- The `current_interval` accumulator dict of
`processor.py::analyze_tower_jumps`. -/
structure Interval where
  start_time : Option ℤ
  end_time : Option ℤ
  states : List Label
  records : List Record
deriving DecidableEq, Repr

/-- The result dict built by `processor.py::_process_interval`. -/
structure IntervalResult where
  start_time : Option ℤ
  end_time : Option ℤ
  state : Label
  is_tower_jump : String
  confidence_percentage : ℚ
  total_records : ℕ
  states_count : List (Label × ℕ)
deriving DecidableEq, Repr

/-- `processor.py::_process_interval`: majority label, confidence and the
jump decision for a closed interval. -/
def process_interval (min_confidence : ℚ) (interval : Interval) : IntervalResult :=
  let state_counter := counterList interval.states
  let total_records := interval.states.length
  let best := mostCommon1 state_counter
  let confidence : ℚ := (best.2 : ℚ) / (total_records : ℚ)
  { start_time := interval.start_time
    end_time := interval.end_time
    state := best.1
    is_tower_jump :=
      if state_counter.length > 1 ∧ confidence < min_confidence then "yes" else "no"
    confidence_percentage := roundTo 2 (confidence * 100)
    total_records := total_records
    states_count := state_counter }

/-! ### processor.py — `analyze_tower_jumps`

`sorted(self.data, key=lambda x: x["utc_datetime"])` compares the
`utc_datetime` keys with `<`; a comparison that involves `None` raises
`TypeError`.  We model the sort as a stable insertion sort (Python's
sort is stable, and two stable comparison sorts agree whenever all
comparisons succeed) with a fallible key comparison. -/

/-- `x["utc_datetime"] < y["utc_datetime"]` in Python: raises `TypeError`
when either side is `None`. -/
def keyLT : Option ℤ → Option ℤ → Except String Bool
  | some a, some b => .ok (decide (a < b))
  | _, _ => .error "TypeError: '<' not supported between instances of 'NoneType' and 'datetime.datetime'"

/-- Stable insertion of one record into an already-sorted list: the new
record goes after every element whose key is not greater (Python
stability). -/
def insertRec (r : Record) : List Record → Except String (List Record)
  | [] => .ok [r]
  | x :: xs =>
      match keyLT r.utc_datetime x.utc_datetime with
      | .error e => .error e
      | .ok true => .ok (r :: x :: xs)
      | .ok false =>
          match insertRec r xs with
          | .error e => .error e
          | .ok t => .ok (x :: t)

/-- Left fold of `insertRec` over the input. -/
def sortAux : List Record → List Record → Except String (List Record)
  | acc, [] => .ok acc
  | acc, r :: rest =>
      match insertRec r acc with
      | .error e => .error e
      | .ok acc2 => sortAux acc2 rest

/-- `sorted(self.data, key=lambda x: x["utc_datetime"])` — succeeds with
the stable ascending ordering, or raises on a `None` key (any list of
length ≥ 2 containing a `None` key triggers a comparison with it). -/
def sortData (l : List Record) : Except String (List Record) :=
  sortAux [] l

/-- `(record["utc_datetime"] - interval_end).total_seconds() / 60`:
raises `TypeError` when either operand is `None`. -/
def diffMinutes : Option ℤ → Option ℤ → Except String ℚ
  | some a, some b => .ok (((a - b : ℤ) : ℚ) / 60)
  | _, _ => .error "TypeError: unsupported operand type(s) for -"

/-- The fresh accumulator built when a record opens a new interval. -/
def newInterval (r : Record) : Interval :=
  { start_time := r.utc_datetime, end_time := r.utc_datetime,
    states := [r.state], records := [r] }

/-- Extending the open accumulator with an in-window record. -/
def extendInterval (iv : Interval) (r : Record) : Interval :=
  { iv with end_time := r.utc_datetime,
            states := iv.states ++ [r.state],
            records := iv.records ++ [r] }

/-- The record loop of `processor.py::analyze_tower_jumps`, with the
current (still open) interval as explicit state.  A record whose state
is blank is skipped; otherwise its gap to the open interval's end
boundary decides between extending and closing (rolling boundary,
`time_diff <= self.time_window_minutes`). -/
def analyzeLoop (time_window_minutes min_confidence : ℚ) :
    List Record → Option Interval → Except String (List IntervalResult)
  | [], none => .ok []
  | [], some iv => .ok [process_interval min_confidence iv]
  | r :: rest, none =>
      if blank r.state then
        analyzeLoop time_window_minutes min_confidence rest none
      else
        analyzeLoop time_window_minutes min_confidence rest (some (newInterval r))
  | r :: rest, some iv =>
      if blank r.state then
        analyzeLoop time_window_minutes min_confidence rest (some iv)
      else
        match diffMinutes r.utc_datetime iv.end_time with
        | .error e => .error e
        | .ok time_diff =>
            if time_diff ≤ time_window_minutes then
              analyzeLoop time_window_minutes min_confidence rest (some (extendInterval iv r))
            else
              match analyzeLoop time_window_minutes min_confidence rest (some (newInterval r)) with
              | .error e => .error e
              | .ok tail => .ok (process_interval min_confidence iv :: tail)

/-- `processor.py::analyze_tower_jumps`: sort by `utc_datetime`, then run
the interval loop. -/
def analyze_tower_jumps (time_window_minutes min_confidence : ℚ)
    (data : List Record) : Except String (List IntervalResult) :=
  match sortData data with
  | .error e => .error e
  | .ok sorted_data => analyzeLoop time_window_minutes min_confidence sorted_data none

/-- The same loop as `analyzeLoop`, collecting the closed accumulators
themselves instead of their `process_interval` summaries (used to reason
about interval membership; `analyzeLoop_eq_accsLoop` ties the two). -/
def accsLoop (time_window_minutes : ℚ) :
    List Record → Option Interval → Except String (List Interval)
  | [], none => .ok []
  | [], some iv => .ok [iv]
  | r :: rest, none =>
      if blank r.state then
        accsLoop time_window_minutes rest none
      else
        accsLoop time_window_minutes rest (some (newInterval r))
  | r :: rest, some iv =>
      if blank r.state then
        accsLoop time_window_minutes rest (some iv)
      else
        match diffMinutes r.utc_datetime iv.end_time with
        | .error e => .error e
        | .ok time_diff =>
            if time_diff ≤ time_window_minutes then
              accsLoop time_window_minutes rest (some (extendInterval iv r))
            else
              match accsLoop time_window_minutes rest (some (newInterval r)) with
              | .error e => .error e
              | .ok tail => .ok (iv :: tail)

/-- The member-record groups underlying the emitted intervals. -/
def segGroups (time_window_minutes : ℚ) (data : List Record) :
    Except String (List (List Record)) :=
  match sortData data with
  | .error e => .error e
  | .ok sorted_data =>
      match accsLoop time_window_minutes sorted_data none with
      | .error e => .error e
      | .ok accs => .ok (accs.map Interval.records)

/-! ### test.py — `analyze_tower_jumps`

Rows of the (already preprocessed and time-sorted) dataframe carry a
parsed `UTCDateTime` (epoch seconds — `pd.to_datetime` on the strict
format raises on failure, so every row has one) and a `State` string,
where `""` models both an empty string and a missing (`NaN`) value, the
two cases `pd.isna(row["State"]) or row["State"] == ""` treats as
absent. -/

structure TRec where
  utc : ℤ
  state : String
deriving DecidableEq, Repr

/-- One row of the results dataframe built by
`test.py::analyze_tower_jumps`.  Its `confidence` is the unrounded
percentage `confidence * 100`. -/
structure TResult where
  start_time : ℤ
  end_time : ℤ
  state : Label
  is_tower_jump : String
  confidence : ℚ
deriving DecidableEq, Repr

/-- The interval-summary computation `test.py` writes out twice verbatim
(once when a record closes an interval, once for the final interval):
`Counter`, `most_common(1)[0]`, `confidence = count / len(state_records)`,
`is_tower_jump = len(state_counter) > 1 and confidence < min_confidence`.
Returns (dominant state, jump flag, confidence percentage). -/
def testClassify (min_confidence : ℚ) (state_records : List Label) :
    Label × String × ℚ :=
  let state_counter := counterList state_records
  let best := mostCommon1 state_counter
  let confidence : ℚ := (best.2 : ℚ) / (state_records.length : ℚ)
  (best.1,
   if state_counter.length > 1 ∧ confidence < min_confidence then "yes" else "no",
   confidence * 100)

/-- The row loop of `test.py::analyze_tower_jumps`.  State: the open
interval's `current_interval_start` together with `state_records`
(`none` before the first labeled row).  The gap is measured from the
interval's start (fixed-start boundary); an out-of-window record closes
the interval with `end_time = record_time - timedelta(minutes=1)`, and
the final interval is closed with `end_time = self.df.iloc[-1]["UTCDateTime"]`
(the last row of the whole dataframe `df`; `df` is non-empty whenever
`state_records` is, so the `getLastD` default is unreachable). -/
def testLoop (time_window_minutes min_confidence : ℚ) (df : List TRec) :
    List TRec → Option (ℤ × List Label) → List TResult
  | [], none => []
  | [], some (current_interval_start, state_records) =>
      let c := testClassify min_confidence state_records
      [{ start_time := current_interval_start,
         end_time := (df.getLastD ⟨0, ""⟩).utc,
         state := c.1, is_tower_jump := c.2.1, confidence := c.2.2 }]
  | r :: rest, none =>
      if r.state = "" then
        testLoop time_window_minutes min_confidence df rest none
      else
        testLoop time_window_minutes min_confidence df rest (some (r.utc, [r.state]))
  | r :: rest, some (current_interval_start, state_records) =>
      if r.state = "" then
        testLoop time_window_minutes min_confidence df rest
          (some (current_interval_start, state_records))
      else
        let time_diff : ℚ := ((r.utc - current_interval_start : ℤ) : ℚ) / 60
        if time_diff ≤ time_window_minutes then
          testLoop time_window_minutes min_confidence df rest
            (some (current_interval_start, state_records ++ [r.state]))
        else
          let c := testClassify min_confidence state_records
          { start_time := current_interval_start, end_time := r.utc - 60,
            state := c.1, is_tower_jump := c.2.1, confidence := c.2.2 }
            :: testLoop time_window_minutes min_confidence df rest
                 (some (r.utc, [r.state]))

/-- `test.py::analyze_tower_jumps` over the preprocessed dataframe. -/
def testAnalyze (time_window_minutes min_confidence : ℚ) (df : List TRec) :
    List TResult :=
  testLoop time_window_minutes min_confidence df df none

/-! ### processor.py — `fill_missing_states` -/

/-- One dict-insertion step of the first pass: append `s` to the label
list of key `k`, creating the entry on first sight (Python dict,
insertion-ordered keys). -/
def addCoord : List ((ℚ × ℚ) × List Label) → (ℚ × ℚ) → Label →
    List ((ℚ × ℚ) × List Label)
  | [], k, s => [(k, [s])]
  | (k', ss) :: rest, k, s =>
      if k' = k then (k', ss ++ [s]) :: rest else (k', ss) :: addCoord rest k s

/-- The `coord_key` of a record: its coordinates rounded to 3 decimals. -/
def coordKey (r : Record) : ℚ × ℚ := (roundTo 3 r.latitude, roundTo 3 r.longitude)

/-- One iteration of the first loop of `fill_missing_states`: a record
with a non-blank state and both coordinates different from 0 appends its
state under its `coord_key`; every other record contributes nothing. -/
def collectStep (m : List ((ℚ × ℚ) × List Label)) (r : Record) :
    List ((ℚ × ℚ) × List Label) :=
  if ¬ blank r.state ∧ r.latitude ≠ 0 ∧ r.longitude ≠ 0 then
    addCoord m (coordKey r) r.state
  else m

/-- First loop of `fill_missing_states`: the `coord_to_state` dict while
it still holds label lists. -/
def collectCoords (data : List Record) : List ((ℚ × ℚ) × List Label) :=
  data.foldl collectStep []

/-- First-match association lookup (`coord_key in coord_to_state` /
`coord_to_state[coord_key]`). -/
def lookupA {β : Type} : List ((ℚ × ℚ) × β) → (ℚ × ℚ) → Option β
  | [], _ => none
  | (k', v) :: rest, k => if k' = k then some v else lookupA rest k

/-- Second loop of `fill_missing_states`: replace each label list with
its most common label. -/
def coordToState (data : List Record) : List ((ℚ × ℚ) × Label) :=
  (collectCoords data).map (fun kv => (kv.1, (mostCommon1 (counterList kv.2)).1))

/-- Third loop of `fill_missing_states`, for one record: a blank-state
record with both coordinates nonzero whose `coord_key` is a key of
`coord_to_state` gets that key's state. -/
def fillRecord (coord_to_state : List ((ℚ × ℚ) × Label)) (r : Record) : Record :=
  if blank r.state then
    if r.latitude ≠ 0 ∧ r.longitude ≠ 0 then
      match lookupA coord_to_state (coordKey r) with
      | some st => { r with state := st }
      | none => r
    else r
  else r

/-- `processor.py::fill_missing_states`: build the coordinate → state
map from the data, then fill every blank-state record it can. -/
def fill_missing_states (data : List Record) : List Record :=
  data.map (fillRecord (coordToState data))

/-! ### processor.py — loading and parsing

`datetime.strptime` compiles the format into a regex
(`%m ↦ 1[0-2]|0[1-9]|[1-9]`, `%d ↦ 3[01]|[12]\d|0[1-9]|[1-9]`,
`%y ↦ \d\d`, `%Y ↦ \d\d\d\d`, `%H ↦ 2[0-3]|[0-1]\d|\d`,
`%M ↦ [0-5]\d|\d`, `%S ↦ 6[0-1]|[0-5]\d|\d`, whitespace ↦ `\s+`),
requires a full match, then builds the `datetime`, which validates the
day against the month and the field ranges (`ValueError` on failure —
caught by the same `except` as a regex mismatch).  Token matchers below
return every admissible split in regex-preference order, so the head of
the composed match list is the backtracking regex's match. -/

structure DateTime where
  year : ℕ
  month : ℕ
  day : ℕ
  hour : ℕ
  minute : ℕ
  second : ℕ
deriving DecidableEq, Repr

/-- Numeric value of a digit character. -/
def dval (c : Char) : ℕ := c.toNat - 48

/-- `%m`: `1[0-2]|0[1-9]|[1-9]`. -/
def matchMonth : List Char → List (ℕ × List Char)
  | [] => []
  | [c1] => if '1' ≤ c1 ∧ c1 ≤ '9' then [(dval c1, [])] else []
  | c1 :: c2 :: rest =>
      (if c1 = '1' ∧ '0' ≤ c2 ∧ c2 ≤ '2' then [(10 + dval c2, rest)] else [])
      ++ (if c1 = '0' ∧ '1' ≤ c2 ∧ c2 ≤ '9' then [(dval c2, rest)] else [])
      ++ (if '1' ≤ c1 ∧ c1 ≤ '9' then [(dval c1, c2 :: rest)] else [])

/-- `%d`: `3[01]|[12]\d|0[1-9]|[1-9]`. -/
def matchDay : List Char → List (ℕ × List Char)
  | [] => []
  | [c1] => if '1' ≤ c1 ∧ c1 ≤ '9' then [(dval c1, [])] else []
  | c1 :: c2 :: rest =>
      (if c1 = '3' ∧ (c2 = '0' ∨ c2 = '1') then [(30 + dval c2, rest)] else [])
      ++ (if (c1 = '1' ∨ c1 = '2') ∧ c2.isDigit then [(10 * dval c1 + dval c2, rest)] else [])
      ++ (if c1 = '0' ∧ '1' ≤ c2 ∧ c2 ≤ '9' then [(dval c2, rest)] else [])
      ++ (if '1' ≤ c1 ∧ c1 ≤ '9' then [(dval c1, c2 :: rest)] else [])

/-- `%y`: `\d\d`. -/
def matchYear2 : List Char → List (ℕ × List Char)
  | c1 :: c2 :: rest =>
      if c1.isDigit ∧ c2.isDigit then [(10 * dval c1 + dval c2, rest)] else []
  | _ => []

/-- `%Y`: `\d\d\d\d` (strptime's regex for `%Y` is exactly four digits). -/
def matchYear4 : List Char → List (ℕ × List Char)
  | c1 :: c2 :: c3 :: c4 :: rest =>
      if c1.isDigit ∧ c2.isDigit ∧ c3.isDigit ∧ c4.isDigit then
        [(1000 * dval c1 + 100 * dval c2 + 10 * dval c3 + dval c4, rest)]
      else []
  | _ => []

/-- `%H`: `2[0-3]|[0-1]\d|\d`. -/
def matchHour : List Char → List (ℕ × List Char)
  | [] => []
  | [c1] => if c1.isDigit then [(dval c1, [])] else []
  | c1 :: c2 :: rest =>
      (if c1 = '2' ∧ '0' ≤ c2 ∧ c2 ≤ '3' then [(20 + dval c2, rest)] else [])
      ++ (if (c1 = '0' ∨ c1 = '1') ∧ c2.isDigit then [(10 * dval c1 + dval c2, rest)] else [])
      ++ (if c1.isDigit then [(dval c1, c2 :: rest)] else [])

/-- `%M`: `[0-5]\d|\d`. -/
def matchMinute : List Char → List (ℕ × List Char)
  | [] => []
  | [c1] => if c1.isDigit then [(dval c1, [])] else []
  | c1 :: c2 :: rest =>
      (if '0' ≤ c1 ∧ c1 ≤ '5' ∧ c2.isDigit then [(10 * dval c1 + dval c2, rest)] else [])
      ++ (if c1.isDigit then [(dval c1, c2 :: rest)] else [])

/-- `%S`: `6[0-1]|[0-5]\d|\d` (the regex admits leap seconds, the
`datetime` constructor then rejects them). -/
def matchSecond : List Char → List (ℕ × List Char)
  | [] => []
  | [c1] => if c1.isDigit then [(dval c1, [])] else []
  | c1 :: c2 :: rest =>
      (if c1 = '6' ∧ (c2 = '0' ∨ c2 = '1') then [(60 + dval c2, rest)] else [])
      ++ (if '0' ≤ c1 ∧ c1 ≤ '5' ∧ c2.isDigit then [(10 * dval c1 + dval c2, rest)] else [])
      ++ (if c1.isDigit then [(dval c1, c2 :: rest)] else [])

/-- A literal format character: matches exactly itself. -/
def litChar (c : Char) : List Char → List (List Char)
  | x :: rest => if x = c then [rest] else []
  | [] => []

/-- Whitespace in the format: `\s+`, greedy (longest consumption first). -/
def litSpace : List Char → List (List Char)
  | [] => []
  | c :: rest => if c.isWhitespace then litSpace rest ++ [rest] else []

/-- All full parses of `%m/%d/%y %H:%M` in regex-backtracking order
(unmatched `second` defaults to 0; `%y` values 0–68 map to 2000–2068,
69–99 to 1969–1999). -/
def fmt1Matches (cs : List Char) : List DateTime :=
  (matchMonth cs).flatMap (fun p1 =>
  (litChar '/' p1.2).flatMap (fun r2 =>
  (matchDay r2).flatMap (fun p2 =>
  (litChar '/' p2.2).flatMap (fun r4 =>
  (matchYear2 r4).flatMap (fun p3 =>
  (litSpace p3.2).flatMap (fun r6 =>
  (matchHour r6).flatMap (fun p4 =>
  (litChar ':' p4.2).flatMap (fun r8 =>
  (matchMinute r8).flatMap (fun p5 =>
    if p5.2 = [] then
      [⟨if p3.1 < 69 then 2000 + p3.1 else 1900 + p3.1, p1.1, p2.1, p4.1, p5.1, 0⟩]
    else [])))))))))

/-- All full parses of `%Y-%m-%d %H:%M:%S` in regex-backtracking order. -/
def fmt2Matches (cs : List Char) : List DateTime :=
  (matchYear4 cs).flatMap (fun p1 =>
  (litChar '-' p1.2).flatMap (fun r2 =>
  (matchMonth r2).flatMap (fun p2 =>
  (litChar '-' p2.2).flatMap (fun r4 =>
  (matchDay r4).flatMap (fun p3 =>
  (litSpace p3.2).flatMap (fun r6 =>
  (matchHour r6).flatMap (fun p4 =>
  (litChar ':' p4.2).flatMap (fun r8 =>
  (matchMinute r8).flatMap (fun p5 =>
  (litChar ':' p5.2).flatMap (fun r10 =>
  (matchSecond r10).flatMap (fun p6 =>
    if p6.2 = [] then
      [⟨p1.1, p2.1, p3.1, p4.1, p5.1, p6.1⟩]
    else [])))))))))))

def isLeapYear (y : ℕ) : Prop := (y % 4 = 0 ∧ y % 100 ≠ 0) ∨ y % 400 = 0

instance (y : ℕ) : Decidable (isLeapYear y) := by unfold isLeapYear; infer_instance

def daysInMonth (year month : ℕ) : ℕ :=
  if month = 2 then (if isLeapYear year then 29 else 28)
  else if month = 4 ∨ month = 6 ∨ month = 9 ∨ month = 11 then 30
  else 31

/-- The validation the `datetime` constructor performs on the captured
fields (month and day lower bounds are already regex-guaranteed). -/
def validDate (dt : DateTime) : Prop :=
  1 ≤ dt.year ∧ dt.year ≤ 9999 ∧ 1 ≤ dt.month ∧ dt.month ≤ 12 ∧
  1 ≤ dt.day ∧ dt.day ≤ daysInMonth dt.year dt.month ∧
  dt.hour ≤ 23 ∧ dt.minute ≤ 59 ∧ dt.second ≤ 59

instance (dt : DateTime) : Decidable (validDate dt) := by unfold validDate; infer_instance

/-- One `strptime` attempt: the leftmost-greedy full regex match,
validated; `none` covers both a regex mismatch and an invalid date,
which raise the same `ValueError`. -/
def tryFormat (cands : List DateTime) : Option DateTime :=
  match cands.head? with
  | some dt => if validDate dt then some dt else none
  | none => none

/-- `processor.py::_parse_datetime`: try `%m/%d/%y %H:%M`, fall back to
`%Y-%m-%d %H:%M:%S`, and return `None` when both fail. -/
def parse_datetime (dt_str : String) : Option DateTime :=
  match tryFormat (fmt1Matches dt_str.data) with
  | some dt => some dt
  | none => tryFormat (fmt2Matches dt_str.data)

/-- Epoch seconds of a (valid) `DateTime` — civil-from-days arithmetic;
every division has non-negative operands for the dates the parsers
admit. -/
def toEpochSeconds (dt : DateTime) : ℤ :=
  let yShift : ℕ := if dt.month ≤ 2 then dt.year - 1 else dt.year
  let era : ℕ := yShift / 400
  let yoe : ℕ := yShift % 400
  let mp : ℕ := if 2 < dt.month then dt.month - 3 else dt.month + 9
  let doy : ℕ := (153 * mp + 2) / 5 + dt.day - 1
  let doe : ℕ := yoe * 365 + yoe / 4 - yoe / 100 + doy
  (((era * 146097 + doe : ℕ) : ℤ) - 719468) * 86400
    + dt.hour * 3600 + dt.minute * 60 + dt.second

/-- Natural value of an all-digit character list (`none` when empty or
holding a non-digit). -/
def natDigits (ds : List Char) : Option ℕ :=
  if ds ≠ [] ∧ ds.all Char.isDigit then
    some (ds.foldl (fun a c => 10 * a + dval c) 0)
  else none

/-- Surrounding-whitespace trim used by Python's numeric constructors. -/
def trimWS (cs : List Char) : List Char :=
  ((cs.dropWhile Char.isWhitespace).reverse.dropWhile Char.isWhitespace).reverse

/-- Python `int(s)` (digit underscores, which the claims never exercise,
are not modelled). -/
def parseInt (s : String) : Option ℤ :=
  match trimWS s.data with
  | [] => none
  | c :: rest =>
      if c = '+' then (natDigits rest).map (fun n => (n : ℤ))
      else if c = '-' then (natDigits rest).map (fun n => -(n : ℤ))
      else (natDigits (c :: rest)).map (fun n => (n : ℤ))

/-- Value of an unsigned decimal `digits[.digits][($e|E)[±]digits]`
character list. -/
def parseUFloat (cs : List Char) : Option ℚ :=
  let ip := cs.takeWhile Char.isDigit
  let r1 := cs.dropWhile Char.isDigit
  let fp := match r1 with
    | '.' :: r2 => r2.takeWhile Char.isDigit
    | _ => []
  let r2 := match r1 with
    | '.' :: r2 => r2.dropWhile Char.isDigit
    | _ => r1
  if ip = [] ∧ fp = [] then none
  else
    let mant : ℚ := (ip.foldl (fun a c => 10 * a + dval c) 0 : ℕ)
      + ((fp.foldl (fun a c => 10 * a + dval c) 0 : ℕ) : ℚ) / 10 ^ fp.length
    match r2 with
    | [] => some mant
    | e :: r3 =>
        if e = 'e' ∨ e = 'E' then
          match r3 with
          | [] => none
          | c :: r4 =>
              if c = '+' then (natDigits r4).map (fun k => mant * 10 ^ k)
              else if c = '-' then (natDigits r4).map (fun k => mant / 10 ^ k)
              else (natDigits (c :: r4)).map (fun k => mant * 10 ^ k)
        else none

/-- Python `float(s)` on our rational model of floats (`inf`/`nan`
literals and digit underscores are not modelled; the code never feeds
them). -/
def parseFloat (s : String) : Option ℚ :=
  match trimWS s.data with
  | [] => none
  | c :: rest =>
      if c = '+' then parseUFloat rest
      else if c = '-' then (parseUFloat rest).map Neg.neg
      else parseUFloat (c :: rest)

/-- One raw CSV row as handed to `_process_row` (every header present;
`KeyError` is therefore unreachable in the model). -/
structure Row where
  page : String
  item : String
  utcDateTime : String
  localDateTime : String
  latitude : String
  longitude : String
  timeZone : String
  city : String
  county : String
  state : String
  country : String
  cellType : String
deriving DecidableEq, Repr

/-- `processor.py::_process_row`.  A datetime that parses under neither
format yields `None` in the corresponding field but keeps the row; a
`ValueError` from `int(...)`/`float(...)` drops the row (returns
`none`).  An empty coordinate string is falsy and becomes `0.0` without
calling `float`. -/
def process_row (row : Row) : Option Record :=
  let utc_dt := parse_datetime row.utcDateTime
  let local_dt := parse_datetime row.localDateTime
  match parseInt row.page, parseInt row.item,
        (if row.latitude = "" then some 0 else parseFloat row.latitude),
        (if row.longitude = "" then some 0 else parseFloat row.longitude) with
  | some page, some item, some lat, some lon =>
      some { page := page, item := item,
             utc_datetime := utc_dt.map toEpochSeconds,
             local_datetime := local_dt.map toEpochSeconds,
             latitude := lat, longitude := lon,
             timezone := row.timeZone, city := row.city, county := row.county,
             state := row.state, country := row.country,
             cell_type := row.cellType }
  | _, _, _, _ => none

/-- `processor.py::load_data`: keep every row `_process_row` accepts. -/
def load_data (rows : List Row) : List Record :=
  rows.filterMap process_row

/-! ### Counter lemmas -/

theorem bump_keys (l : List (Label × ℕ)) (s a : Label) :
    a ∈ (bump l s).map Prod.fst ↔ a ∈ l.map Prod.fst ∨ a = s := by
  induction l with
  | nil => simp [bump]
  | cons p rest ih =>
      obtain ⟨b, n⟩ := p
      by_cases h : b = s
      · subst h
        simp [bump]
        tauto
      · simp [bump, h, ih]
        tauto

theorem bump_keys_nodup (l : List (Label × ℕ)) (s : Label)
    (h : (l.map Prod.fst).Nodup) : ((bump l s).map Prod.fst).Nodup := by
  induction l with
  | nil => simp [bump]
  | cons p rest ih =>
      obtain ⟨b, n⟩ := p
      simp only [List.map_cons, List.nodup_cons] at h
      by_cases hb : b = s
      · subst hb
        simpa [bump] using h
      · simp only [bump, if_neg hb, List.map_cons, List.nodup_cons]
        refine ⟨fun hmem => ?_, ih h.2⟩
        rcases (bump_keys rest s b).mp hmem with h1 | h1
        · exact h.1 h1
        · exact hb h1

theorem counterAux_keys (ss : List Label) :
    ∀ (l : List (Label × ℕ)) (a : Label),
      a ∈ ((ss.foldl bump l).map Prod.fst) ↔ a ∈ l.map Prod.fst ∨ a ∈ ss := by
  induction ss with
  | nil => simp
  | cons s rest ih =>
      intro l a
      simp only [List.foldl_cons, ih, bump_keys, List.mem_cons]
      tauto

theorem counterAux_nodup (ss : List Label) :
    ∀ (l : List (Label × ℕ)), (l.map Prod.fst).Nodup →
      ((ss.foldl bump l).map Prod.fst).Nodup := by
  induction ss with
  | nil => intro l h; simpa using h
  | cons s rest ih =>
      intro l h
      exact ih _ (bump_keys_nodup l s h)

theorem counterList_keys (ss : List Label) (a : Label) :
    a ∈ (counterList ss).map Prod.fst ↔ a ∈ ss := by
  simpa [counterList] using counterAux_keys ss [] a

theorem counterList_nodup (ss : List Label) :
    ((counterList ss).map Prod.fst).Nodup := by
  simpa [counterList] using counterAux_nodup ss [] (by simp)

theorem two_mem_length {α : Type} {l : List α} {a b : α}
    (ha : a ∈ l) (hb : b ∈ l) (hab : a ≠ b) : 2 ≤ l.length := by
  match l with
  | [] => cases ha
  | [x] =>
      simp only [List.mem_singleton] at ha hb
      exact absurd (ha.trans hb.symm) hab
  | x :: y :: t => simp [Nat.succ_le_succ, Nat.le_add_left]

theorem counterList_length_gt_one {ss : List Label} :
    1 < (counterList ss).length ↔ ∃ a ∈ ss, ∃ b ∈ ss, a ≠ b := by
  constructor
  · intro h
    match hcl : counterList ss with
    | [] => rw [hcl] at h; simp at h
    | [p] => rw [hcl] at h; simp at h
    | p :: q :: t =>
        have hnd := counterList_nodup ss
        rw [hcl] at hnd
        simp only [List.map_cons, List.nodup_cons, List.mem_cons, List.mem_map] at hnd
        have hne : p.1 ≠ q.1 := fun he => hnd.1 (Or.inl he)
        have hp : p.1 ∈ ss := by
          rw [← counterList_keys ss p.1, hcl]; simp
        have hq : q.1 ∈ ss := by
          rw [← counterList_keys ss q.1, hcl]; simp
        exact ⟨p.1, hp, q.1, hq, hne⟩
  · rintro ⟨a, ha, b, hb, hab⟩
    have ha' : a ∈ (counterList ss).map Prod.fst := (counterList_keys ss a).mpr ha
    have hb' : b ∈ (counterList ss).map Prod.fst := (counterList_keys ss b).mpr hb
    have := two_mem_length ha' hb' hab
    simpa using this

/-- C1 (and the uniform/singleton corollaries) are stated against
`process_interval`; this is the bridge from "more than one distinct
label" to the counter length the code tests. -/
theorem process_interval_is_tower_jump (min_confidence : ℚ) (iv : Interval) :
    (process_interval min_confidence iv).is_tower_jump =
      if 1 < (counterList iv.states).length ∧
          ((mostCommon1 (counterList iv.states)).2 : ℚ) / (iv.states.length : ℚ)
            < min_confidence then "yes" else "no" := by
  simp [process_interval]

/-- **C1.**  At every interval close (`_process_interval`, also used for
the force-closed final interval), `is_tower_jump` is `"yes"` iff the
member labels contain two distinct labels and the exact confidence
`dominant_count / total_count` is strictly below `min_confidence`;
consequently a single-member interval, and an interval whose members all
share one label, is never a jump. -/
theorem claim1_jump_rule (min_confidence : ℚ) (iv : Interval)
    (_h : iv.states ≠ []) :
    ((process_interval min_confidence iv).is_tower_jump = "yes" ↔
      (∃ a ∈ iv.states, ∃ b ∈ iv.states, a ≠ b) ∧
        ((mostCommon1 (counterList iv.states)).2 : ℚ) / (iv.states.length : ℚ)
          < min_confidence)
    ∧ (iv.states.length = 1 →
        (process_interval min_confidence iv).is_tower_jump = "no")
    ∧ ((∀ a ∈ iv.states, ∀ b ∈ iv.states, a = b) →
        (process_interval min_confidence iv).is_tower_jump = "no") := by
  have hrule := process_interval_is_tower_jump min_confidence iv
  refine ⟨?_, ?_, ?_⟩
  · rw [hrule]
    by_cases hc : 1 < (counterList iv.states).length ∧
        ((mostCommon1 (counterList iv.states)).2 : ℚ) / (iv.states.length : ℚ)
          < min_confidence
    · rw [if_pos hc]
      simp only [true_iff]
      exact ⟨counterList_length_gt_one.mp hc.1, hc.2⟩
    · rw [if_neg hc]
      constructor
      · intro hno; exact absurd hno (by decide)
      · rintro ⟨hd, hconf⟩
        exact absurd ⟨counterList_length_gt_one.mpr hd, hconf⟩ hc
  · intro hlen
    obtain ⟨x, hx⟩ := List.length_eq_one.mp hlen
    rw [hrule, if_neg]
    rintro ⟨hgt, -⟩
    obtain ⟨a, ha, b, hb, hab⟩ := counterList_length_gt_one.mp hgt
    rw [hx] at ha hb
    simp only [List.mem_singleton] at ha hb
    exact hab (ha.trans hb.symm)
  · intro huni
    rw [hrule, if_neg]
    rintro ⟨hgt, -⟩
    obtain ⟨a, ha, b, hb, hab⟩ := counterList_length_gt_one.mp hgt
    exact hab (huni a ha b hb)

/-- Witness for C1 at a concrete interval: two distinct labels split
1:1, confidence 1/2 below the 0.6 default — a jump. -/
theorem claim1_jump_rule_witness :
    (process_interval (3/5)
      { start_time := some 0, end_time := some 60,
        states := ["A", "B"], records := [] }).is_tower_jump = "yes" :=
  ((claim1_jump_rule (3/5)
    { start_time := some 0, end_time := some 60,
      states := ["A", "B"], records := [] } (by decide)).1).mpr
    ⟨⟨"A", by decide, "B", by decide, by decide⟩,
      by simp [mostCommon1, counterList, bump]; norm_num⟩

/-- **C5.**  The jump decision compares the unrounded confidence against
`min_confidence` with strict `<`: a 3:2 split (confidence exactly 3/5)
is not a jump at `min_confidence = 0.6` and is a jump at
`min_confidence = 0.61`; the 2-decimal rounding only affects the
displayed `confidence_percentage` (here exactly 60). -/
theorem claim5_strict_unrounded_comparison :
    (process_interval (3/5)
      { start_time := some 0, end_time := some 0,
        states := ["A", "A", "A", "B", "B"], records := [] }).is_tower_jump = "no"
    ∧ (process_interval (61/100)
      { start_time := some 0, end_time := some 0,
        states := ["A", "A", "A", "B", "B"], records := [] }).is_tower_jump = "yes"
    ∧ (process_interval (3/5)
      { start_time := some 0, end_time := some 0,
        states := ["A", "A", "A", "B", "B"], records := [] }).confidence_percentage = 60 := by
  refine ⟨?_, ?_, ?_⟩ <;>
    · simp [process_interval, counterList, bump, mostCommon1, roundTo, roundHalfEven]
      all_goals norm_num

/-- A concrete record with the given time (epoch seconds) and state;
the fields the segmenter does not consume are fixed. -/
def mkRec (t : ℤ) (st : String) : Record :=
  { page := 1, item := 1, utc_datetime := some t, local_datetime := none,
    latitude := 0, longitude := 0, timezone := "", city := "", county := "",
    state := st, country := "", cell_type := "" }

/-- **C4.**  The 6-record end-to-end scenario: records at minutes
0, 1, 2, 10, 11, 20 with states A, A, B, A, B, A, window 5 minutes and
`min_confidence` 0.6 yield exactly the three documented intervals. -/
theorem claim4_end_to_end :
    analyze_tower_jumps 5 (3/5)
      [mkRec 0 "A", mkRec 60 "A", mkRec 120 "B",
       mkRec 600 "A", mkRec 660 "B", mkRec 1200 "A"] =
    .ok
      [{ start_time := some 0, end_time := some 120, state := "A",
         is_tower_jump := "no", confidence_percentage := 6667/100,
         total_records := 3, states_count := [("A", 2), ("B", 1)] },
       { start_time := some 600, end_time := some 660, state := "A",
         is_tower_jump := "yes", confidence_percentage := 50,
         total_records := 2, states_count := [("A", 1), ("B", 1)] },
       { start_time := some 1200, end_time := some 1200, state := "A",
         is_tower_jump := "no", confidence_percentage := 100,
         total_records := 1, states_count := [("A", 1)] }] := by
  simp [analyze_tower_jumps, sortData, sortAux, insertRec, keyLT, mkRec,
    analyzeLoop, newInterval, extendInterval, diffMinutes, blank,
    process_interval, counterList, bump, mostCommon1, roundTo, roundHalfEven]
  all_goals norm_num [Int.fract]

/-- **C2, counterexample.**  On the same chronologically sorted,
label-completed records (times 0, 4, 8 minutes, all state A) with the
same parameters, `processor.py` emits one interval (rolling boundary:
each 4-minute gap is within the window) while `test.py` emits two
(fixed-start boundary: minute 8 is outside the window of the interval's
start) — the two implementations do not emit equal interval sequences. -/
theorem claim2_counterexample :
    analyze_tower_jumps 5 (3/5) [mkRec 0 "A", mkRec 240 "A", mkRec 480 "A"]
      = .ok [{ start_time := some 0, end_time := some 480, state := "A",
               is_tower_jump := "no", confidence_percentage := 100,
               total_records := 3, states_count := [("A", 3)] }]
    ∧ testAnalyze 5 (3/5) [⟨0, "A"⟩, ⟨240, "A"⟩, ⟨480, "A"⟩]
      = [{ start_time := 0, end_time := 420, state := "A",
           is_tower_jump := "no", confidence := 100 },
         { start_time := 480, end_time := 480, state := "A",
           is_tower_jump := "no", confidence := 100 }] := by
  constructor
  · simp [analyze_tower_jumps, sortData, sortAux, insertRec, keyLT, mkRec,
      analyzeLoop, newInterval, extendInterval, diffMinutes, blank,
      process_interval, counterList, bump, mostCommon1, roundTo, roundHalfEven]
    all_goals norm_num [Int.fract]
  · simp [testAnalyze, testLoop, testClassify, counterList, bump, mostCommon1]
    all_goals norm_num

/-- **C2, amended.**  What does hold: the per-interval classification is
identical in the two implementations — for any member-label list both
compute the same dominant label and the same jump flag, with
`processor.py` displaying the percentage rounded to 2 decimals where
`test.py` keeps it unrounded.  The segmentations themselves differ
(rolling vs fixed-start boundary, different end-time conventions), as
the concrete three-record run above shows. -/
theorem claim2_amended_same_classification (min_confidence : ℚ)
    (st en : Option ℤ) (states : List Label) (recs : List Record) :
    (testClassify min_confidence states).1
        = (process_interval min_confidence
            { start_time := st, end_time := en,
              states := states, records := recs }).state
    ∧ (testClassify min_confidence states).2.1
        = (process_interval min_confidence
            { start_time := st, end_time := en,
              states := states, records := recs }).is_tower_jump
    ∧ roundTo 2 (testClassify min_confidence states).2.2
        = (process_interval min_confidence
            { start_time := st, end_time := en,
              states := states, records := recs }).confidence_percentage := by
  refine ⟨rfl, rfl, rfl⟩

/-! ### C10 — test.py end-time conventions -/

theorem testLoop_some_ne_nil (time_window_minutes min_confidence : ℚ)
    (df : List TRec) :
    ∀ (l : List TRec) (s : ℤ) (srecs : List Label),
      testLoop time_window_minutes min_confidence df l (some (s, srecs)) ≠ [] := by
  intro l
  induction l with
  | nil => intro s srecs; simp [testLoop]
  | cons r rest ih =>
      intro s srecs
      by_cases hb : r.state = ""
      · simp only [testLoop, if_pos hb]
        exact ih s srecs
      · simp only [testLoop, if_neg hb]
        by_cases hd : ((r.utc - s : ℤ) : ℚ) / 60 ≤ time_window_minutes
        · rw [if_pos hd]
          exact ih s (srecs ++ [r.state])
        · rw [if_neg hd]
          simp

theorem testLoop_dropLast_end_time (time_window_minutes min_confidence : ℚ)
    (df : List TRec) :
    ∀ (l : List TRec) (acc : Option (ℤ × List Label)),
      ∀ res ∈ (testLoop time_window_minutes min_confidence df l acc).dropLast,
        ∃ r ∈ l, r.state ≠ "" ∧ res.end_time = r.utc - 60 := by
  intro l
  induction l with
  | nil =>
      intro acc res hres
      match acc with
      | none => simp [testLoop] at hres
      | some (s, srecs) => simp [testLoop] at hres
  | cons r rest ih =>
      intro acc res hres
      match acc with
      | none =>
          by_cases hb : r.state = ""
          · simp only [testLoop, if_pos hb] at hres
            obtain ⟨r', hr', h1, h2⟩ := ih none res hres
            exact ⟨r', List.mem_cons_of_mem _ hr', h1, h2⟩
          · simp only [testLoop, if_neg hb] at hres
            obtain ⟨r', hr', h1, h2⟩ := ih _ res hres
            exact ⟨r', List.mem_cons_of_mem _ hr', h1, h2⟩
      | some (s, srecs) =>
          by_cases hb : r.state = ""
          · simp only [testLoop, if_pos hb] at hres
            obtain ⟨r', hr', h1, h2⟩ := ih _ res hres
            exact ⟨r', List.mem_cons_of_mem _ hr', h1, h2⟩
          · by_cases hd : ((r.utc - s : ℤ) : ℚ) / 60 ≤ time_window_minutes
            · simp only [testLoop, if_neg hb, if_pos hd] at hres
              obtain ⟨r', hr', h1, h2⟩ := ih _ res hres
              exact ⟨r', List.mem_cons_of_mem _ hr', h1, h2⟩
            · simp only [testLoop, if_neg hb, if_neg hd] at hres
              rw [List.dropLast_cons_of_ne_nil
                  (testLoop_some_ne_nil time_window_minutes min_confidence df rest r.utc [r.state])]
                at hres
              rcases List.mem_cons.mp hres with hres | hres
              · subst hres
                exact ⟨r, List.mem_cons_self r rest, hb, rfl⟩
              · obtain ⟨r', hr', h1, h2⟩ := ih _ res hres
                exact ⟨r', List.mem_cons_of_mem _ hr', h1, h2⟩

theorem testLoop_getLast?_end_time (time_window_minutes min_confidence : ℚ)
    (df : List TRec) :
    ∀ (l : List TRec) (acc : Option (ℤ × List Label)) (res : TResult),
      (testLoop time_window_minutes min_confidence df l acc).getLast? = some res →
        res.end_time = (df.getLastD ⟨0, ""⟩).utc := by
  intro l
  induction l with
  | nil =>
      intro acc res hres
      match acc with
      | none => simp [testLoop] at hres
      | some (s, srecs) =>
          simp only [testLoop, List.getLast?_singleton, Option.some_inj] at hres
          rw [← hres]
  | cons r rest ih =>
      intro acc res hres
      match acc with
      | none =>
          by_cases hb : r.state = ""
          · simp only [testLoop, if_pos hb] at hres
            exact ih none res hres
          · simp only [testLoop, if_neg hb] at hres
            exact ih _ res hres
      | some (s, srecs) =>
          by_cases hb : r.state = ""
          · simp only [testLoop, if_pos hb] at hres
            exact ih _ res hres
          · by_cases hd : ((r.utc - s : ℤ) : ℚ) / 60 ≤ time_window_minutes
            · simp only [testLoop, if_neg hb, if_pos hd] at hres
              exact ih _ res hres
            · simp only [testLoop, if_neg hb, if_neg hd] at hres
              have hne := testLoop_some_ne_nil time_window_minutes min_confidence df rest r.utc [r.state]
              cases hl : testLoop time_window_minutes min_confidence df rest (some (r.utc, [r.state])) with
              | nil => exact absurd hl hne
              | cons a as =>
                  rw [hl, List.getLast?_cons_cons] at hres
                  have hih := ih (some (r.utc, [r.state])) res
                  rw [hl] at hih
                  exact hih hres

/-- **C10.**  In `test.py`, an interval closed by an out-of-window record
gets `end_time` = that record's time minus one minute (so it can be
strictly later than every member's timestamp — concretely, members at
minute 0 yield `end_time` 540 s), and the final interval's `end_time` is
the `UTCDateTime` of the last dataframe row, which postdates the last
member when trailing rows have a blank state (second concrete run). -/
theorem claim10_end_time_conventions (time_window_minutes min_confidence : ℚ)
    (df : List TRec) :
    (∀ res ∈ (testAnalyze time_window_minutes min_confidence df).dropLast,
        ∃ r ∈ df, r.state ≠ "" ∧ res.end_time = r.utc - 60)
    ∧ (∀ res, (testAnalyze time_window_minutes min_confidence df).getLast? = some res →
        res.end_time = (df.getLastD ⟨0, ""⟩).utc)
    ∧ testAnalyze 5 (3/5) [⟨0, "A"⟩, ⟨600, "A"⟩]
        = [⟨0, 540, "A", "no", 100⟩, ⟨600, 600, "A", "no", 100⟩]
    ∧ testAnalyze 5 (3/5) [⟨0, "A"⟩, ⟨600, ""⟩]
        = [⟨0, 600, "A", "no", 100⟩] := by
  refine ⟨?_, ?_, ?_, ?_⟩
  · intro res hres
    rw [testAnalyze] at hres
    exact testLoop_dropLast_end_time time_window_minutes min_confidence df df none res hres
  · intro res hres
    rw [testAnalyze] at hres
    exact testLoop_getLast?_end_time time_window_minutes min_confidence df df none res hres
  · simp [testAnalyze, testLoop, testClassify, counterList, bump, mostCommon1]
    norm_num
  · simp [testAnalyze, testLoop, testClassify, counterList, bump, mostCommon1]

/-- Witness for C10 at a concrete run: the first emitted interval of the
two-record run ends 60 seconds before its closing record. -/
theorem claim10_end_time_conventions_witness :
    ∃ r ∈ ([⟨0, "A"⟩, ⟨600, "A"⟩] : List TRec),
      r.state ≠ "" ∧ (540 : ℤ) = r.utc - 60 := by
  have h := claim10_end_time_conventions 5 (3/5) [⟨0, "A"⟩, ⟨600, "A"⟩]
  have hmem : (⟨0, 540, "A", "no", 100⟩ : TResult)
      ∈ (testAnalyze 5 (3/5) [⟨0, "A"⟩, ⟨600, "A"⟩]).dropLast := by
    rw [h.2.2.1]
    simp
  obtain ⟨r, hr, hne, hend⟩ := h.1 _ hmem
  exact ⟨r, hr, hne, hend⟩

/-! ### C3 — coverage of the processor segmentation -/

/-- `analyzeLoop` is `accsLoop` followed by `_process_interval` on each
closed accumulator. -/
theorem analyzeLoop_eq_accsLoop (time_window_minutes min_confidence : ℚ) :
    ∀ (l : List Record) (oacc : Option Interval),
      analyzeLoop time_window_minutes min_confidence l oacc =
        match accsLoop time_window_minutes l oacc with
        | .error e => .error e
        | .ok accs => .ok (accs.map (process_interval min_confidence)) := by
  intro l
  induction l with
  | nil =>
      intro oacc
      match oacc with
      | none => simp [analyzeLoop, accsLoop]
      | some iv => simp [analyzeLoop, accsLoop]
  | cons r rest ih =>
      intro oacc
      match oacc with
      | none =>
          by_cases hb : blank r.state
          · simp only [analyzeLoop, accsLoop, if_pos hb]
            exact ih none
          · simp only [analyzeLoop, accsLoop, if_neg hb]
            exact ih _
      | some iv =>
          by_cases hb : blank r.state
          · simp only [analyzeLoop, accsLoop, if_pos hb]
            exact ih _
          · simp only [analyzeLoop, accsLoop, if_neg hb]
            cases hdm : diffMinutes r.utc_datetime iv.end_time with
            | error e => simp
            | ok d =>
                simp only
                by_cases hd : d ≤ time_window_minutes
                · rw [if_pos hd, if_pos hd]
                  exact ih _
                · rw [if_neg hd, if_neg hd, ih (some (newInterval r))]
                  cases accsLoop time_window_minutes rest (some (newInterval r)) with
                  | error e => simp
                  | ok tail => simp

/-- The member records of the closed accumulators: the open
accumulator's records followed by every remaining non-blank record, in
order. -/
theorem accsLoop_join (time_window_minutes : ℚ) :
    ∀ (l : List Record) (oacc : Option Interval) (accs : List Interval),
      accsLoop time_window_minutes l oacc = .ok accs →
        (accs.map Interval.records).flatten =
          (match oacc with | none => [] | some iv => iv.records)
            ++ l.filter (fun r => !blank r.state) := by
  intro l
  induction l with
  | nil =>
      intro oacc accs h
      match oacc with
      | none =>
          simp only [accsLoop] at h
          cases h
          simp
      | some iv =>
          simp only [accsLoop] at h
          cases h
          simp
  | cons r rest ih =>
      intro oacc accs h
      match oacc with
      | none =>
          by_cases hb : blank r.state
          · simp only [accsLoop, if_pos hb] at h
            rw [ih none accs h]
            simp [List.filter_cons, hb]
          · simp only [accsLoop, if_neg hb] at h
            rw [ih _ accs h]
            simp [List.filter_cons, hb, newInterval]
      | some iv =>
          by_cases hb : blank r.state
          · simp only [accsLoop, if_pos hb] at h
            rw [ih _ accs h]
            simp [List.filter_cons, hb]
          · simp only [accsLoop, if_neg hb] at h
            cases hdm : diffMinutes r.utc_datetime iv.end_time with
            | error e => rw [hdm] at h; cases h
            | ok d =>
                rw [hdm] at h
                simp only at h
                by_cases hd : d ≤ time_window_minutes
                · rw [if_pos hd] at h
                  rw [ih _ accs h]
                  simp [List.filter_cons, hb, extendInterval]
                · rw [if_neg hd] at h
                  cases hacc : accsLoop time_window_minutes rest (some (newInterval r)) with
                  | error e => rw [hacc] at h; cases h
                  | ok tail =>
                      rw [hacc] at h
                      cases h
                      have := ih _ tail hacc
                      simp only [List.map_cons, List.flatten_cons, this, newInterval]
                      simp [List.filter_cons, hb]

/-- Every closed accumulator carries as many member labels as member
records. -/
theorem accsLoop_lengths (time_window_minutes : ℚ) :
    ∀ (l : List Record) (oacc : Option Interval) (accs : List Interval),
      accsLoop time_window_minutes l oacc = .ok accs →
        (∀ iv, oacc = some iv → iv.states.length = iv.records.length) →
        ∀ a ∈ accs, a.states.length = a.records.length := by
  intro l
  induction l with
  | nil =>
      intro oacc accs h hwf
      match oacc with
      | none =>
          simp only [accsLoop] at h
          cases h
          simp
      | some iv =>
          simp only [accsLoop] at h
          cases h
          simpa using hwf iv rfl
  | cons r rest ih =>
      intro oacc accs h hwf
      match oacc with
      | none =>
          by_cases hb : blank r.state
          · simp only [accsLoop, if_pos hb] at h
            exact ih none accs h (by simp)
          · simp only [accsLoop, if_neg hb] at h
            exact ih _ accs h (by intro iv hiv; cases hiv; simp [newInterval])
      | some iv =>
          by_cases hb : blank r.state
          · simp only [accsLoop, if_pos hb] at h
            exact ih _ accs h hwf
          · simp only [accsLoop, if_neg hb] at h
            cases hdm : diffMinutes r.utc_datetime iv.end_time with
            | error e => rw [hdm] at h; cases h
            | ok d =>
                rw [hdm] at h
                simp only at h
                by_cases hd : d ≤ time_window_minutes
                · rw [if_pos hd] at h
                  refine ih _ accs h ?_
                  intro iv' hiv'
                  cases hiv'
                  have := hwf iv rfl
                  simp [extendInterval, this]
                · rw [if_neg hd] at h
                  cases hacc : accsLoop time_window_minutes rest (some (newInterval r)) with
                  | error e => rw [hacc] at h; cases h
                  | ok tail =>
                      rw [hacc] at h
                      cases h
                      intro a ha
                      rcases List.mem_cons.mp ha with ha | ha
                      · subst ha
                        exact hwf a rfl
                      · exact ih _ tail hacc
                          (by intro iv' hiv'; cases hiv'; simp [newInterval]) a ha

/-- A successful insertion permutes the inserted record into the list. -/
theorem insertRec_perm (r : Record) :
    ∀ (l l' : List Record), insertRec r l = .ok l' → l'.Perm (r :: l) := by
  intro l
  induction l with
  | nil =>
      intro l' h
      simp only [insertRec] at h
      cases h
      exact List.Perm.refl _
  | cons x xs ih =>
      intro l' h
      simp only [insertRec] at h
      cases hk : keyLT r.utc_datetime x.utc_datetime with
      | error e => rw [hk] at h; cases h
      | ok b =>
          rw [hk] at h
          cases b with
          | true =>
              simp only at h
              cases h
              exact List.Perm.refl _
          | false =>
              simp only at h
              cases hi : insertRec r xs with
              | error e => rw [hi] at h; cases h
              | ok t =>
                  rw [hi] at h
                  cases h
                  exact (List.Perm.cons x (ih t hi)).trans (List.Perm.swap r x xs)

/-- A successful `sortAux` run permutes accumulator and input together. -/
theorem sortAux_perm :
    ∀ (l acc res : List Record), sortAux acc l = .ok res → res.Perm (acc ++ l) := by
  intro l
  induction l with
  | nil =>
      intro acc res h
      simp only [sortAux] at h
      cases h
      simp
  | cons r rest ih =>
      intro acc res h
      simp only [sortAux] at h
      cases hi : insertRec r acc with
      | error e => rw [hi] at h; cases h
      | ok acc2 =>
          rw [hi] at h
          have h1 := ih acc2 res h
          have h2 := insertRec_perm r acc acc2 hi
          exact h1.trans ((h2.append_right rest).trans List.perm_middle.symm)

/-- A successful sort is a permutation of the input. -/
theorem sortData_perm (l s : List Record) (h : sortData l = .ok s) : s.Perm l := by
  simpa using sortAux_perm l [] s h

/-- **C3.**  On a successful run of `analyze_tower_jumps` the member
groups of the emitted intervals are exactly the non-blank-state input
records (as a permutation of the input's sorted order: every such record
lands in exactly one interval), the interval `total_records` sum to the
number of non-blank-state input records, and no blank-state record is a
member of any interval. -/
theorem claim3_coverage (time_window_minutes min_confidence : ℚ)
    (data : List Record) (res : List IntervalResult) (groups : List (List Record))
    (hres : analyze_tower_jumps time_window_minutes min_confidence data = .ok res)
    (hgroups : segGroups time_window_minutes data = .ok groups) :
    groups.flatten.Perm (data.filter (fun r => !blank r.state))
    ∧ (res.map IntervalResult.total_records).sum
        = (data.filter (fun r => !blank r.state)).length
    ∧ ∀ r ∈ data, blank r.state → ∀ g ∈ groups, r ∉ g := by
  rw [analyze_tower_jumps] at hres
  rw [segGroups] at hgroups
  cases hs : sortData data with
  | error e => rw [hs] at hres; cases hres
  | ok s =>
      rw [hs] at hres hgroups
      simp only at hres hgroups
      cases ha : accsLoop time_window_minutes s none with
      | error e => rw [ha] at hgroups; cases hgroups
      | ok accs =>
          rw [ha] at hgroups
          simp only at hgroups
          cases hgroups
          rw [analyzeLoop_eq_accsLoop, ha] at hres
          simp only at hres
          cases hres
          have hperm : s.Perm data := sortData_perm data s hs
          have hjoin := accsLoop_join time_window_minutes s none accs ha
          simp only [List.nil_append] at hjoin
          have hfil : (s.filter (fun r => !blank r.state)).Perm
              (data.filter (fun r => !blank r.state)) := hperm.filter _
          refine ⟨?_, ?_, ?_⟩
          · rw [hjoin]
            exact hfil
          · have hlen := accsLoop_lengths time_window_minutes s none accs ha (by simp)
            have h1 : (accs.map (process_interval min_confidence)).map
                IntervalResult.total_records = accs.map (fun iv => iv.states.length) := by
              rw [List.map_map]
              rfl
            have h2 : accs.map (fun iv => iv.states.length)
                = accs.map (fun iv => iv.records.length) :=
              List.map_congr_left hlen
            rw [h1, h2, ← hfil.length_eq, ← hjoin]
            rw [List.length_flatten, List.map_map]
            rfl
          · intro r hr hblank g hg hrg
            have hmem : r ∈ (accs.map Interval.records).flatten :=
              List.mem_flatten.mpr ⟨g, hg, hrg⟩
            rw [hjoin] at hmem
            have hmem2 : r ∈ data.filter (fun r => !blank r.state) :=
              hfil.mem_iff.mp hmem
            have := List.of_mem_filter hmem2
            simp [hblank] at this

/-- Witness for C3 at a concrete run: one labeled and one blank record;
the single interval holds exactly the labeled one. -/
theorem claim3_coverage_witness :
    ([[mkRec 0 "A"]] : List (List Record)).flatten.Perm
        ([mkRec 0 "A", mkRec 60 ""].filter (fun r => !blank r.state))
    ∧ (([{ start_time := some 0, end_time := some 0, state := "A",
           is_tower_jump := "no", confidence_percentage := 100,
           total_records := 1, states_count := [("A", 1)] }] : List IntervalResult).map
          IntervalResult.total_records).sum
        = ([mkRec 0 "A", mkRec 60 ""].filter (fun r => !blank r.state)).length
    ∧ ∀ r ∈ [mkRec 0 "A", mkRec 60 ""], blank r.state →
        ∀ g ∈ ([[mkRec 0 "A"]] : List (List Record)), r ∉ g :=
  claim3_coverage 5 (3/5) [mkRec 0 "A", mkRec 60 ""]
    [{ start_time := some 0, end_time := some 0, state := "A",
       is_tower_jump := "no", confidence_percentage := 100,
       total_records := 1, states_count := [("A", 1)] }]
    [[mkRec 0 "A"]]
    (by
      simp [analyze_tower_jumps, sortData, sortAux, insertRec, keyLT, mkRec,
        analyzeLoop, newInterval, extendInterval, diffMinutes, blank,
        process_interval, counterList, bump, mostCommon1, roundTo, roundHalfEven]
      all_goals norm_num)
    (by
      simp [segGroups, sortData, sortAux, insertRec, keyLT, mkRec,
        accsLoop, newInterval, extendInterval, diffMinutes, blank])

/-! ### C6 / C9 — handling of unparseable UTCDateTime strings -/

/-- A raw row whose `UTCDateTime` matches neither accepted format. -/
def rowBadUTC : Row :=
  { page := "1", item := "2", utcDateTime := "not-a-date",
    localDateTime := "01/02/23 04:05", latitude := "", longitude := "",
    timeZone := "", city := "", county := "", state := "CA", country := "",
    cellType := "" }

/-- What `_process_row` makes of `rowBadUTC`: the record survives with
`utc_datetime = None`. -/
def recBadUTC : Record :=
  { page := 1, item := 2, utc_datetime := none,
    local_datetime := some 1672632300, latitude := 0, longitude := 0,
    timezone := "", city := "", county := "", state := "CA", country := "",
    cell_type := "" }

/-- A raw row that parses normally (`01/02/23 04:05` UTC). -/
def rowGoodUTC : Row :=
  { page := "3", item := "4", utcDateTime := "01/02/23 04:05",
    localDateTime := "", latitude := "", longitude := "",
    timeZone := "", city := "", county := "", state := "NY", country := "",
    cellType := "" }

/-- What `_process_row` makes of `rowGoodUTC`. -/
def recGoodUTC : Record :=
  { page := 3, item := 4, utc_datetime := some 1672632300,
    local_datetime := none, latitude := 0, longitude := 0,
    timezone := "", city := "", county := "", state := "NY", country := "",
    cell_type := "" }

/-- **C6 (divergence).**  A row whose `UTCDateTime` matches neither
format is *not* dropped: `_parse_datetime` returns `None`, yet
`_process_row` still accepts the row, so it enters the loaded data set
(with `utc_datetime = None`), contrary to the drop-with-warning policy
the spec states. -/
theorem claim6_malformed_utc_row_is_kept :
    parse_datetime "not-a-date" = none
    ∧ load_data [rowBadUTC] = [recBadUTC]
    ∧ recBadUTC.utc_datetime = none := by
  refine ⟨rfl, rfl, rfl⟩

theorem insertRec_total (r : Record) :
    ∀ (l : List Record), r.utc_datetime.isSome →
      (∀ x ∈ l, x.utc_datetime.isSome) → ∃ l', insertRec r l = .ok l' := by
  intro l
  induction l with
  | nil => intro _ _; exact ⟨[r], rfl⟩
  | cons x xs ih =>
      intro hr hl
      obtain ⟨a, ha⟩ := Option.isSome_iff_exists.mp hr
      obtain ⟨b, hb⟩ := Option.isSome_iff_exists.mp (hl x (by simp))
      have hk : keyLT r.utc_datetime x.utc_datetime = .ok (decide (a < b)) := by
        rw [ha, hb, keyLT]
      cases hdec : decide (a < b) with
      | true =>
          refine ⟨r :: x :: xs, ?_⟩
          rw [insertRec, hk, hdec]
      | false =>
          obtain ⟨t, ht⟩ := ih hr (fun y hy => hl y (List.mem_cons_of_mem _ hy))
          refine ⟨x :: t, ?_⟩
          rw [insertRec, hk, hdec, ht]

theorem sortAux_total :
    ∀ (l acc : List Record), (∀ x ∈ l, x.utc_datetime.isSome) →
      (∀ x ∈ acc, x.utc_datetime.isSome) →
      ∃ res, sortAux acc l = .ok res ∧ ∀ x ∈ res, x.utc_datetime.isSome := by
  intro l
  induction l with
  | nil => intro acc _ hacc; exact ⟨acc, rfl, hacc⟩
  | cons r rest ih =>
      intro acc hl hacc
      obtain ⟨acc2, h2⟩ := insertRec_total r acc (hl r (by simp))
        hacc
      have hacc2 : ∀ x ∈ acc2, x.utc_datetime.isSome := by
        intro x hx
        have hmem := (insertRec_perm r acc acc2 h2).mem_iff.mp hx
        rcases List.mem_cons.mp hmem with hmem | hmem
        · subst hmem; exact hl x (by simp)
        · exact hacc x hmem
      obtain ⟨res, hres, hressome⟩ := ih acc2
        (fun y hy => hl y (List.mem_cons_of_mem _ hy)) hacc2
      refine ⟨res, ?_, hressome⟩
      rw [sortAux, h2]
      simp only
      exact hres

theorem analyzeLoop_total (time_window_minutes min_confidence : ℚ) :
    ∀ (l : List Record) (oacc : Option Interval),
      (∀ x ∈ l, x.utc_datetime.isSome) →
      (∀ iv, oacc = some iv → iv.end_time.isSome) →
      ∃ res, analyzeLoop time_window_minutes min_confidence l oacc = .ok res := by
  intro l
  induction l with
  | nil =>
      intro oacc _ _
      match oacc with
      | none => exact ⟨[], rfl⟩
      | some iv => exact ⟨[process_interval min_confidence iv], rfl⟩
  | cons r rest ih =>
      intro oacc hl hwf
      have hr : r.utc_datetime.isSome := hl r (by simp)
      have hrest : ∀ x ∈ rest, x.utc_datetime.isSome :=
        fun y hy => hl y (List.mem_cons_of_mem _ hy)
      match oacc with
      | none =>
          by_cases hb : blank r.state
          · obtain ⟨res, hres⟩ := ih none hrest (by simp)
            exact ⟨res, by rw [analyzeLoop, if_pos hb]; exact hres⟩
          · obtain ⟨res, hres⟩ := ih (some (newInterval r)) hrest
              (by intro iv hiv; cases hiv; simpa [newInterval] using hr)
            exact ⟨res, by rw [analyzeLoop, if_neg hb]; exact hres⟩
      | some iv =>
          by_cases hb : blank r.state
          · obtain ⟨res, hres⟩ := ih (some iv) hrest hwf
            exact ⟨res, by rw [analyzeLoop, if_pos hb]; exact hres⟩
          · obtain ⟨a, ha⟩ := Option.isSome_iff_exists.mp hr
            obtain ⟨b, hb'⟩ := Option.isSome_iff_exists.mp (hwf iv rfl)
            have hdm : diffMinutes r.utc_datetime iv.end_time
                = .ok (((a - b : ℤ) : ℚ) / 60) := by
              rw [ha, hb', diffMinutes]
            by_cases hd : ((a - b : ℤ) : ℚ) / 60 ≤ time_window_minutes
            · obtain ⟨res, hres⟩ := ih (some (extendInterval iv r)) hrest
                (by intro iv' hiv'; cases hiv'; simpa [extendInterval] using hr)
              refine ⟨res, ?_⟩
              rw [analyzeLoop, if_neg hb, hdm]
              simp only
              rw [if_pos hd]
              exact hres
            · obtain ⟨tail, htail⟩ := ih (some (newInterval r)) hrest
                (by intro iv' hiv'; cases hiv'; simpa [newInterval] using hr)
              refine ⟨process_interval min_confidence iv :: tail, ?_⟩
              rw [analyzeLoop, if_neg hb, hdm]
              simp only
              rw [if_neg hd, htail]

/-- **C9.**  An unparseable `UTCDateTime` yields a loaded record with
`utc_datetime = None`; with one such record plus one normally-parsed
record, the sort at the start of `analyze_tower_jumps` hits the
`None`-vs-`datetime` comparison and raises — so `analyze_tower_jumps`
is total exactly under the precondition that every loaded record carries
a parsed timestamp. -/
theorem claim9_unparsed_timestamp_breaks_sort :
    (process_row rowBadUTC = some recBadUTC ∧ recBadUTC.utc_datetime = none)
    ∧ analyze_tower_jumps 5 (3/5) (load_data [rowBadUTC, rowGoodUTC])
        = .error "TypeError: '<' not supported between instances of 'NoneType' and 'datetime.datetime'"
    ∧ (∀ (time_window_minutes min_confidence : ℚ) (data : List Record),
        (∀ r ∈ data, r.utc_datetime.isSome) →
        ∃ res, analyze_tower_jumps time_window_minutes min_confidence data = .ok res) := by
  refine ⟨⟨rfl, rfl⟩, rfl, ?_⟩
  intro time_window_minutes min_confidence data hsome
  obtain ⟨s, hs, hssome⟩ := sortAux_total data [] hsome (by simp)
  obtain ⟨res, hres⟩ := analyzeLoop_total time_window_minutes min_confidence s none
    hssome (by simp)
  refine ⟨res, ?_⟩
  rw [analyze_tower_jumps, sortData, hs]
  simp only
  exact hres

/-- Witness for C9's totality clause at a concrete all-parsed data set. -/
theorem claim9_unparsed_timestamp_breaks_sort_witness :
    ∃ res, analyze_tower_jumps 5 (3/5) [mkRec 0 "A"] = .ok res :=
  claim9_unparsed_timestamp_breaks_sort.2.2 5 (3/5) [mkRec 0 "A"]
    (by intro r hr; simp only [List.mem_singleton] at hr; subst hr; rfl)

/-! ### C7 / C8 — the Imputer -/

theorem addCoord_keys (m : List ((ℚ × ℚ) × List Label)) (k : ℚ × ℚ) (s : Label)
    (k' : ℚ × ℚ) :
    k' ∈ (addCoord m k s).map Prod.fst ↔ k' ∈ m.map Prod.fst ∨ k' = k := by
  induction m with
  | nil => simp [addCoord]
  | cons kv rest ih =>
      obtain ⟨k0, ss⟩ := kv
      by_cases h : k0 = k
      · subst h
        simp [addCoord]
        tauto
      · simp [addCoord, h, ih]
        tauto

theorem addCoord_inv (m : List ((ℚ × ℚ) × List Label)) (k : ℚ × ℚ) (s : Label)
    (hs : ¬ blank s)
    (hm : ∀ kv ∈ m, kv.2 ≠ [] ∧ ∀ x ∈ kv.2, ¬ blank x) :
    ∀ kv ∈ addCoord m k s, kv.2 ≠ [] ∧ ∀ x ∈ kv.2, ¬ blank x := by
  induction m with
  | nil =>
      intro kv hkv
      simp only [addCoord, List.mem_singleton] at hkv
      subst hkv
      exact ⟨by simp, by intro x hx; simp only [List.mem_singleton] at hx; subst hx; exact hs⟩
  | cons kv0 rest ih =>
      obtain ⟨k0, ss⟩ := kv0
      intro kv hkv
      by_cases h : k0 = k
      · subst h
        rw [addCoord, if_pos rfl] at hkv
        rcases List.mem_cons.mp hkv with hkv | hkv
        · subst hkv
          obtain ⟨-, hall⟩ := hm (k0, ss) (by simp)
          refine ⟨by simp, ?_⟩
          intro x hx
          rcases List.mem_append.mp hx with hx | hx
          · exact hall x hx
          · simp only [List.mem_singleton] at hx; subst hx; exact hs
        · exact hm kv (List.mem_cons_of_mem _ hkv)
      · rw [addCoord, if_neg h] at hkv
        rcases List.mem_cons.mp hkv with hkv | hkv
        · subst hkv
          exact hm (k0, ss) (by simp)
        · exact ih (fun kv' hkv' => hm kv' (List.mem_cons_of_mem _ hkv')) kv hkv

theorem collect_keys (data : List Record) :
    ∀ (m : List ((ℚ × ℚ) × List Label)) (k : ℚ × ℚ),
      k ∈ ((data.foldl collectStep m).map Prod.fst) ↔
        k ∈ m.map Prod.fst ∨
          ∃ r ∈ data, (¬ blank r.state ∧ r.latitude ≠ 0 ∧ r.longitude ≠ 0)
            ∧ coordKey r = k := by
  induction data with
  | nil => simp
  | cons r rest ih =>
      intro m k
      rw [List.foldl_cons]
      rw [ih]
      by_cases hc : ¬ blank r.state ∧ r.latitude ≠ 0 ∧ r.longitude ≠ 0
      · rw [collectStep, if_pos hc]
        constructor
        · rintro (h | h)
          · rcases (addCoord_keys m (coordKey r) r.state k).mp h with h' | h'
            · exact Or.inl h'
            · exact Or.inr ⟨r, by simp, hc, h'.symm⟩
          · obtain ⟨r', hr', hcond, hkey⟩ := h
            exact Or.inr ⟨r', List.mem_cons_of_mem _ hr', hcond, hkey⟩
        · rintro (h | ⟨r', hr', hcond, hkey⟩)
          · exact Or.inl ((addCoord_keys m (coordKey r) r.state k).mpr (Or.inl h))
          · rcases List.mem_cons.mp hr' with h' | h'
            · subst h'
              exact Or.inl ((addCoord_keys m (coordKey r') r'.state k).mpr (Or.inr hkey.symm))
            · exact Or.inr ⟨r', h', hcond, hkey⟩
      · rw [collectStep, if_neg hc]
        constructor
        · rintro (h | h)
          · exact Or.inl h
          · obtain ⟨r', hr', hcond, hkey⟩ := h
            exact Or.inr ⟨r', List.mem_cons_of_mem _ hr', hcond, hkey⟩
        · rintro (h | ⟨r', hr', hcond, hkey⟩)
          · exact Or.inl h
          · rcases List.mem_cons.mp hr' with h' | h'
            · subst h'
              exact absurd hcond hc
            · exact Or.inr ⟨r', h', hcond, hkey⟩

theorem collectCoords_keys (data : List Record) (k : ℚ × ℚ) :
    k ∈ (collectCoords data).map Prod.fst ↔
      ∃ r ∈ data, (¬ blank r.state ∧ r.latitude ≠ 0 ∧ r.longitude ≠ 0)
        ∧ coordKey r = k := by
  simpa [collectCoords] using collect_keys data [] k

theorem collect_inv (data : List Record) :
    ∀ (m : List ((ℚ × ℚ) × List Label)),
      (∀ kv ∈ m, kv.2 ≠ [] ∧ ∀ x ∈ kv.2, ¬ blank x) →
      ∀ kv ∈ data.foldl collectStep m, kv.2 ≠ [] ∧ ∀ x ∈ kv.2, ¬ blank x := by
  induction data with
  | nil => intro m hm; simpa using hm
  | cons r rest ih =>
      intro m hm
      rw [List.foldl_cons]
      refine ih _ ?_
      by_cases hc : ¬ blank r.state ∧ r.latitude ≠ 0 ∧ r.longitude ≠ 0
      · rw [collectStep, if_pos hc]
        exact addCoord_inv m (coordKey r) r.state hc.1 hm
      · rw [collectStep, if_neg hc]
        exact hm

theorem collectCoords_inv (data : List Record) :
    ∀ kv ∈ collectCoords data, kv.2 ≠ [] ∧ ∀ x ∈ kv.2, ¬ blank x :=
  collect_inv data [] (by simp)

theorem foldl_pick_mem :
    ∀ (rest : List (Label × ℕ)) (p : Label × ℕ),
      rest.foldl (fun best q => if best.2 < q.2 then q else best) p ∈ p :: rest := by
  intro rest
  induction rest with
  | nil => intro p; simp
  | cons q t ih =>
      intro p
      rw [List.foldl_cons]
      have hmem := ih (if p.2 < q.2 then q else p)
      by_cases hpq : p.2 < q.2
      · rw [if_pos hpq] at hmem ⊢
        rcases List.mem_cons.mp hmem with h | h
        · rw [h]
          exact List.mem_cons_of_mem _ (List.mem_cons_self q t)
        · exact List.mem_cons_of_mem _ (List.mem_cons_of_mem _ h)
      · rw [if_neg hpq] at hmem ⊢
        rcases List.mem_cons.mp hmem with h | h
        · rw [h]
          exact List.mem_cons_self p _
        · exact List.mem_cons_of_mem _ (List.mem_cons_of_mem _ h)

theorem mostCommon1_mem (l : List (Label × ℕ)) (h : l ≠ []) : mostCommon1 l ∈ l := by
  match l with
  | p :: rest => exact foldl_pick_mem rest p

theorem counterList_ne_nil (ss : List Label) (h : ss ≠ []) : counterList ss ≠ [] := by
  obtain ⟨x, hx⟩ := List.exists_mem_of_ne_nil ss h
  have hx' := (counterList_keys ss x).mpr hx
  intro hcl
  rw [hcl] at hx'
  simp at hx'

theorem mostCommon1_counterList_mem (ss : List Label) (h : ss ≠ []) :
    (mostCommon1 (counterList ss)).1 ∈ ss := by
  have hmem := mostCommon1_mem _ (counterList_ne_nil ss h)
  exact (counterList_keys ss _).mp (List.mem_map_of_mem Prod.fst hmem)

theorem lookupA_some_mem_keys {β : Type} :
    ∀ (m : List ((ℚ × ℚ) × β)) (k : ℚ × ℚ) (v : β),
      lookupA m k = some v → k ∈ m.map Prod.fst := by
  intro m
  induction m with
  | nil => intro k v h; simp [lookupA] at h
  | cons kv rest ih =>
      obtain ⟨k0, v0⟩ := kv
      intro k v h
      rw [lookupA] at h
      by_cases hk : k0 = k
      · subst hk; simp
      · rw [if_neg hk] at h
        exact List.mem_cons_of_mem _ (ih k v h)

theorem lookupA_mem_keys_some {β : Type} :
    ∀ (m : List ((ℚ × ℚ) × β)) (k : ℚ × ℚ),
      k ∈ m.map Prod.fst → ∃ v, lookupA m k = some v := by
  intro m
  induction m with
  | nil => intro k h; simp at h
  | cons kv rest ih =>
      obtain ⟨k0, v0⟩ := kv
      intro k h
      by_cases hk : k0 = k
      · exact ⟨v0, by rw [lookupA, if_pos hk]⟩
      · rw [List.map_cons, List.mem_cons] at h
        rcases h with h | h
        · exact absurd h.symm hk
        · obtain ⟨v, hv⟩ := ih k h
          exact ⟨v, by rw [lookupA, if_neg hk]; exact hv⟩

theorem lookupA_none_of_not_mem {β : Type} :
    ∀ (m : List ((ℚ × ℚ) × β)) (k : ℚ × ℚ),
      k ∉ m.map Prod.fst → lookupA m k = none := by
  intro m
  induction m with
  | nil => intro k _; rfl
  | cons kv rest ih =>
      obtain ⟨k0, v0⟩ := kv
      intro k h
      simp only [List.map_cons, List.mem_cons] at h
      push_neg at h
      rw [lookupA, if_neg (fun he => h.1 he.symm)]
      exact ih k h.2

theorem coordToState_keys (data : List Record) :
    (coordToState data).map Prod.fst = (collectCoords data).map Prod.fst := by
  simp [coordToState, List.map_map, Function.comp]

theorem lookupA_map_values_nonblank :
    ∀ (l : List ((ℚ × ℚ) × List Label)),
      (∀ kv ∈ l, kv.2 ≠ [] ∧ ∀ x ∈ kv.2, ¬ blank x) →
      ∀ (k : ℚ × ℚ) (v : Label),
        lookupA (l.map (fun kv => (kv.1, (mostCommon1 (counterList kv.2)).1))) k
          = some v → ¬ blank v := by
  intro l
  induction l with
  | nil => intro _ k v h; simp [lookupA] at h
  | cons kv rest ih =>
      obtain ⟨k0, ss⟩ := kv
      intro hinv k v h
      simp only [List.map_cons] at h
      rw [lookupA] at h
      by_cases hk : k0 = k
      · rw [if_pos hk] at h
        obtain ⟨hne, hall⟩ := hinv (k0, ss) (by simp)
        have hm := mostCommon1_counterList_mem ss hne
        cases h
        exact hall _ hm
      · rw [if_neg hk] at h
        exact ih (fun kv' hkv' => hinv kv' (List.mem_cons_of_mem _ hkv')) k v h

theorem coordToState_values_nonblank (data : List Record) (k : ℚ × ℚ) (v : Label)
    (h : lookupA (coordToState data) k = some v) : ¬ blank v := by
  rw [coordToState] at h
  exact lookupA_map_values_nonblank (collectCoords data) (collectCoords_inv data) k v h

theorem fillRecord_of_not_blank (m : List ((ℚ × ℚ) × Label)) (r : Record)
    (h : ¬ blank r.state) : fillRecord m r = r := by
  rw [fillRecord, if_neg h]

theorem fillRecord_cases (m : List ((ℚ × ℚ) × Label)) (r : Record) :
    fillRecord m r = r ∨
      (blank r.state ∧ (r.latitude ≠ 0 ∧ r.longitude ≠ 0) ∧
        ∃ st, lookupA m (coordKey r) = some st
          ∧ fillRecord m r = { r with state := st }) := by
  by_cases hb : blank r.state
  · by_cases hc : r.latitude ≠ 0 ∧ r.longitude ≠ 0
    · cases hl : lookupA m (coordKey r) with
      | some st =>
          right
          exact ⟨hb, hc, ⟨st, rfl, by rw [fillRecord, if_pos hb, if_pos hc, hl]⟩⟩
      | none =>
          left
          rw [fillRecord, if_pos hb, if_pos hc, hl]
    · left
      rw [fillRecord, if_pos hb, if_neg hc]
  · left
    exact fillRecord_of_not_blank m r hb

/-- A concrete blank-state record at the sentinel coordinates `(0, 0)`. -/
def recBlank00 : Record :=
  { page := 1, item := 1, utc_datetime := some 0, local_datetime := none,
    latitude := 0, longitude := 0, timezone := "", city := "", county := "",
    state := "", country := "", cell_type := "" }

/-- A concrete labeled record at the sentinel coordinates `(0, 0)`. -/
def recKnown00 : Record :=
  { page := 2, item := 2, utc_datetime := some 60, local_datetime := none,
    latitude := 0, longitude := 0, timezone := "", city := "", county := "",
    state := "CA", country := "", cell_type := "" }

/-- **C7.**  A record with either coordinate exactly 0 contributes
nothing when the coordinate buckets are built (`collectStep` leaves the
dict unchanged) and is never filled (`fillRecord` leaves it unchanged);
in particular a blank record at `(0, 0)` stays blank even when a labeled
record sits at exactly `(0, 0)`. -/
theorem claim7_sentinel_coordinates (m : List ((ℚ × ℚ) × Label))
    (mL : List ((ℚ × ℚ) × List Label)) (r : Record)
    (h : r.latitude = 0 ∨ r.longitude = 0) :
    collectStep mL r = mL
    ∧ fillRecord m r = r
    ∧ fill_missing_states [recBlank00, recKnown00] = [recBlank00, recKnown00] := by
  refine ⟨?_, ?_, ?_⟩
  · rw [collectStep, if_neg]
    rintro ⟨-, h1, h2⟩
    rcases h with h | h
    · exact h1 h
    · exact h2 h
  · by_cases hb : blank r.state
    · rw [fillRecord, if_pos hb, if_neg]
      rintro ⟨h1, h2⟩
      rcases h with h | h
      · exact h1 h
      · exact h2 h
    · exact fillRecord_of_not_blank m r hb
  · rfl

/-- Witness for C7: the map holds a label for key `(0, 0)`, yet the
blank record at `(0, 0)` is not filled. -/
theorem claim7_sentinel_coordinates_witness :
    fillRecord [((0, 0), "CA")] recBlank00 = recBlank00 :=
  (claim7_sentinel_coordinates [((0, 0), "CA")] [] recBlank00 (Or.inl rfl)).2.1

/-- **C8.**  The Imputer is idempotent: a second run of
`fill_missing_states` changes nothing — every record left blank by the
first run has no bucket in the second run's map either (the second map's
keys are a subset of the first's), and non-blank records are never
touched. -/
theorem claim8_imputer_idempotent (data : List Record) :
    fill_missing_states (fill_missing_states data) = fill_missing_states data := by
  rw [fill_missing_states, fill_missing_states]
  set m0 := coordToState data with hm0
  set out := data.map (fillRecord m0) with hout
  set m1 := coordToState out with hm1
  have key_sub : ∀ k, k ∈ (collectCoords out).map Prod.fst →
      k ∈ (collectCoords data).map Prod.fst := by
    intro k hk
    obtain ⟨r', hr', hcond, hkey⟩ := (collectCoords_keys out k).mp hk
    obtain ⟨r, hr, hfr⟩ := List.mem_map.mp hr'
    rcases fillRecord_cases m0 r with hcase | ⟨hb, hc, st, hl, heq⟩
    · have hr'r : r' = r := by rw [← hfr, hcase]
      subst hr'r
      exact (collectCoords_keys data k).mpr ⟨r', hr, hcond, hkey⟩
    · have hr'eq : r' = { r with state := st } := by rw [← hfr, heq]
      have hkk : coordKey r' = coordKey r := by rw [hr'eq]; rfl
      have hmem := lookupA_some_mem_keys m0 (coordKey r) st hl
      rw [hm0, coordToState_keys] at hmem
      rw [← hkey, hkk]
      exact hmem
  have hpt : ∀ r' ∈ out, fillRecord m1 r' = r' := by
    intro r' hr'
    by_cases hb' : blank r'.state
    · obtain ⟨r, hr, hfr⟩ := List.mem_map.mp hr'
      rcases fillRecord_cases m0 r with hcase | ⟨hb, hc, st, hl, heq⟩
      · have hr'r : r' = r := by rw [← hfr, hcase]
        by_cases hcz : r.latitude ≠ 0 ∧ r.longitude ≠ 0
        · cases hlk : lookupA m0 (coordKey r) with
          | some st =>
              exfalso
              have hstnb := coordToState_values_nonblank data (coordKey r) st (hm0 ▸ hlk)
              have hfill : fillRecord m0 r = { r with state := st } := by
                rw [fillRecord, if_pos (hr'r ▸ hb'), if_pos hcz, hlk]
              rw [hcase] at hfill
              have hst : r.state = st := congrArg Record.state hfill
              exact hstnb (hst ▸ (hr'r ▸ hb'))
          | none =>
              have hnotmem : coordKey r ∉ (collectCoords data).map Prod.fst := by
                intro hmem
                rw [← coordToState_keys] at hmem
                obtain ⟨v, hv⟩ := lookupA_mem_keys_some _ _ hmem
                rw [← hm0] at hv
                rw [hv] at hlk
                cases hlk
              have hnot1 : coordKey r' ∉ (coordToState out).map Prod.fst := by
                rw [coordToState_keys, hr'r]
                intro hmem'
                exact hnotmem (key_sub _ hmem')
              have hlk1 : lookupA m1 (coordKey r') = none := by
                rw [hm1]
                exact lookupA_none_of_not_mem _ _ hnot1
              rw [fillRecord, if_pos hb', if_pos (hr'r ▸ hcz), hlk1]
        · rw [fillRecord, if_pos hb', if_neg (hr'r ▸ hcz)]
      · exfalso
        have hr'eq : r' = { r with state := st } := by rw [← hfr, heq]
        have hstnb := coordToState_values_nonblank data (coordKey r) st (hm0 ▸ hl)
        rw [hr'eq] at hb'
        exact hstnb hb'
    · exact fillRecord_of_not_blank m1 r' hb'
  calc out.map (fillRecord m1) = out.map id := List.map_congr_left hpt
    _ = out := List.map_id out

end TowerJump
